import Mathlib

/-!
Verification of the input-language front end of the `go-to-line-improved`
extension: tokenizer (`src/interpreter/tokenizer/tokenize.ts`), parser
(`src/interpreter/parser/parse.ts`) and interpreter
(`src/interpreter/interpret.ts`), shallowly embedded in Lean.

Strings are modelled as `List Char`; the tokenizer's index variable `i` is
threaded explicitly because the source's magnitude accumulation reads it.
-/

namespace GoToLine

/-- Whitespace test used by the tokenizer (`input[i].trim() === ''`) and by the
interpreter's `/\s/` regex: the common JS whitespace characters. -/
def isWs (c : Char) : Bool :=
  c == ' ' || c == '\t' || c == '\n' || c == '\r' || c == '\x0b' || c == '\x0c'

/-- `toDigit` from `tokenize.ts`, restricted to the ten decimal digits on which
it returns a value; `Char.isDigit` plays the role of `isDigit`. -/
def digitVal (c : Char) : Nat :=
  c.toNat - '0'.toNat

/-- The `Token` variant from `token.ts`. -/
inductive Token
  | number (magnitude : Nat)
  | negativeNumber (magnitude : Nat)
  | commaOrColon
  | period
  | doublePeriod
  | H
  | L
  | h
  | l
  | EOF
deriving DecidableEq, Repr

/--
The inner `while ((i + 1 < input.length) && isDigit(input[i + 1]))` loop of
`tokenize`. `cs` is the input remaining after position `i` (the index of the
last consumed character) and `m` is the magnitude accumulated so far.

The loop body is `const nextDigit = ++i; magnitude = (magnitude * 10) + nextDigit;`,
so what is added for each further digit is the new value of the index `i`,
not the digit's value. That is reproduced here exactly: the accumulator
becomes `m * 10 + (i + 1)`.

Returns the final magnitude, the final index and the remaining characters.
-/
def scanRun : List Char → Nat → Nat → Nat × Nat × List Char
  | [], i, m => (m, i, [])
  | c :: rest, i, m =>
    if c.isDigit then scanRun rest (i + 1) (m * 10 + (i + 1)) else (m, i, c :: rest)

/--
The body of `tokenize`'s `for` loop, recursing over the remaining characters;
`i` is the index of the head of `cs` within the whole input.

The `-` case folds the source's behavior for a `-` that is not immediately
followed by a digit: such a `-` fails the `(input[i] === '-') && ...` guard and
every later `else if` test (it is none of `,` `:` `.` `H` `L` `h` `l`), so the
source reaches the final `else` and returns `undefined`; here that is `none`
directly.
-/
def tokenizeAux : List Char → Nat → Option (List Token)
  | [], _ => some []
  | c :: rest, i =>
    if isWs c then
      tokenizeAux rest (i + 1)
    else if c.isDigit then
      let s := scanRun rest i (digitVal c)
      (tokenizeAux s.2.2 (s.2.1 + 1)).map (Token.number s.1 :: ·)
    else if c = '-' then
      match rest with
      | d :: rest2 =>
        if d.isDigit then
          let s := scanRun rest2 (i + 1) (digitVal d)
          (tokenizeAux s.2.2 (s.2.1 + 1)).map (Token.negativeNumber s.1 :: ·)
        else none
      | [] => none
    else if c = ',' ∨ c = ':' then
      (tokenizeAux rest (i + 1)).map (Token.commaOrColon :: ·)
    else if c = '.' then
      if rest.head? = some '.' then
        (tokenizeAux rest.tail (i + 2)).map (Token.doublePeriod :: ·)
      else
        (tokenizeAux rest (i + 1)).map (Token.period :: ·)
    else if c = 'H' then
      (tokenizeAux rest (i + 1)).map (Token.H :: ·)
    else if c = 'L' then
      (tokenizeAux rest (i + 1)).map (Token.L :: ·)
    else if c = 'h' then
      (tokenizeAux rest (i + 1)).map (Token.h :: ·)
    else if c = 'l' then
      (tokenizeAux rest (i + 1)).map (Token.l :: ·)
    else
      none
termination_by cs _ => cs.length
decreasing_by
  all_goals simp_wf
  all_goals
    have hsr : ∀ (cs : List Char) (j m : Nat),
        (scanRun cs j m).2.2.length ≤ cs.length := by
      intro cs
      induction cs with
      | nil => intro j m; simp [scanRun]
      | cons a t ih =>
        intro j m
        by_cases ha : a.isDigit <;> simp [scanRun, ha]
        have := ih (j + 1) (m * 10 + (j + 1))
        omega
  all_goals first
    | omega
    | (have hb := hsr rest i (digitVal c); omega)
    | (have hb := hsr rest2 (i + 1) (digitVal d); omega)

/-- `tokenize` from `tokenize.ts`: scan the whole input starting at index `0`;
`none` models the `undefined` rejection return. The produced token list is the
`TokenStream`'s underlying array (the stream itself is the cursor `i` modelled
by list consumption below). -/
def tokenize (input : List Char) : Option (List Token) :=
  tokenizeAux input 0

/-- Whether the first character of a list is a decimal digit (`false` for the
empty list). Used to state properties of the tokenizer's lookahead. -/
def headIsDigit : List Char → Bool
  | [] => false
  | d :: _ => d.isDigit

/-- Modelled from the claim's words (as amended): the set of characters the
tokenizer recognizes — digits, whitespace, `-`, `,`, `:`, `.`, `H`, `L`, `h`,
`l`. -/
def recognizedChar (c : Char) : Bool :=
  c.isDigit || isWs c || c == '-' || c == ',' || c == ':' || c == '.' ||
    c == 'H' || c == 'L' || c == 'h' || c == 'l'

/-- Modelled from the claim's words (as amended): every character of the input
is recognized, and every `-` is immediately followed by a digit character. -/
def allCharsOk : List Char → Bool
  | [] => true
  | c :: rest =>
    (if c == '-' then headIsDigit rest else recognizedChar c) && allCharsOk rest

/-!
## Syntax tree (`parser/var.ts`) and parser (`parser/parse.ts`)

The parser is state-passing: every TS parsing function mutates the shared
`TokenStream` cursor, which is modelled here by returning the remaining token
list together with the (`Result`, i.e. `Option`) parse result.
-/

/--
The `LINE` variable of the grammar.

`var.ts` declares the two variants with tags `numberOnly` and `minusPrefix`,
while `parseLine` in `parse.ts` constructs objects with tags `number` and
`negativeNumber`. Since the tags are strings, the embedding carries all four
tags that occur in the sources; `interpretLine` matches only the two declared
ones.
-/
inductive VarLine
  | number (value : Nat)
  | negativeNumber (value : Nat)
  | numberOnly (value : Nat)
  | minusPrefix (value : Nat)
deriving DecidableEq, Repr

/-- The `COLUMN` variable of the grammar (`var.ts`). -/
inductive VarColumn
  | number (value : Nat)
  | H
  | L
  | h
  | l
deriving DecidableEq, Repr

/-- The `POSITION` variable of the grammar (`var.ts`). -/
inductive VarPosition
  | lineWithOptionalColumn (line : VarLine) (column : Option VarColumn)
  | columnOnly (column : VarColumn)
deriving DecidableEq, Repr

/-- The `RANGE_END` variable of the grammar (`var.ts`). -/
inductive VarRangeEnd
  | period (position : VarPosition)
  | doublePeriod (position : VarPosition)
deriving DecidableEq, Repr

/-- The `TARGET` variable of the grammar (`var.ts`); the source field `end` is
named `rangeEnd` here because `end` is reserved in Lean. -/
inductive VarTarget
  | startWithOptionalRangeEnd (start : VarPosition) (rangeEnd : Option VarRangeEnd)
  | rangeEndOnly (rangeEnd : VarRangeEnd)
deriving DecidableEq, Repr

/-- `TokenStream.peek`: the foremost token, or `EOF` once exhausted. -/
def peek : List Token → Token
  | [] => Token.EOF
  | t :: _ => t

/-- `TokenStream.pop`: remove and return the foremost token, clamped at `EOF`. -/
def pop : List Token → Token × List Token
  | [] => (Token.EOF, [])
  | t :: ts => (t, ts)

/-- `parseColumn` from `parse.ts`. -/
def parseColumn (ts : List Token) : Option VarColumn × List Token :=
  match pop ts with
  | (Token.commaOrColon, ts1) =>
    match pop ts1 with
    | (Token.number m, ts2) => (some (VarColumn.number m), ts2)
    | (_, ts2) => (none, ts2)
  | (Token.H, ts1) => (some VarColumn.H, ts1)
  | (Token.L, ts1) => (some VarColumn.L, ts1)
  | (Token.h, ts1) => (some VarColumn.h, ts1)
  | (Token.l, ts1) => (some VarColumn.l, ts1)
  | (_, ts1) => (none, ts1)

/-- `parseLine` from `parse.ts`: note that it constructs the tags `number` and
`negativeNumber`, not the tags `numberOnly` / `minusPrefix` that `var.ts`
declares and `interpretLine` matches. -/
def parseLine (ts : List Token) : Option VarLine × List Token :=
  match pop ts with
  | (Token.number m, ts1) => (some (VarLine.number m), ts1)
  | (Token.negativeNumber m, ts1) => (some (VarLine.negativeNumber m), ts1)
  | (_, ts1) => (none, ts1)

/-- `parseOptionalColumn` from `parse.ts`: `some none` is the `Ɛ` expansion. -/
def parseOptionalColumn (ts : List Token) : Option (Option VarColumn) × List Token :=
  match peek ts with
  | Token.commaOrColon | Token.H | Token.L | Token.h | Token.l =>
    let r := parseColumn ts
    (r.1.map some, r.2)
  | Token.period | Token.doublePeriod | Token.EOF => (some none, ts)
  | _ => (none, ts)

/-- `parsePosition` from `parse.ts`. -/
def parsePosition (ts : List Token) : Option VarPosition × List Token :=
  match peek ts with
  | Token.number _ | Token.negativeNumber _ =>
    let lr := parseLine ts
    match lr.1 with
    | some line =>
      let cr := parseOptionalColumn lr.2
      match cr.1 with
      | some column => (some (VarPosition.lineWithOptionalColumn line column), cr.2)
      | none => (none, cr.2)
    | none => (none, lr.2)
  | Token.commaOrColon | Token.H | Token.L | Token.h | Token.l =>
    let r := parseColumn ts
    (r.1.map VarPosition.columnOnly, r.2)
  | _ => (none, ts)

/-- `parseRangeEnd` from `parse.ts`. -/
def parseRangeEnd (ts : List Token) : Option VarRangeEnd × List Token :=
  match pop ts with
  | (Token.period, ts1) =>
    let r := parsePosition ts1
    (r.1.map VarRangeEnd.period, r.2)
  | (Token.doublePeriod, ts1) =>
    let r := parsePosition ts1
    (r.1.map VarRangeEnd.doublePeriod, r.2)
  | (_, ts1) => (none, ts1)

/-- `parseOptionalRangeEnd` from `parse.ts`: `some none` is the `Ɛ` expansion,
taken exactly on lookahead `EOF`. -/
def parseOptionalRangeEnd (ts : List Token) : Option (Option VarRangeEnd) × List Token :=
  match peek ts with
  | Token.period | Token.doublePeriod =>
    let r := parseRangeEnd ts
    (r.1.map some, r.2)
  | Token.EOF => (some none, ts)
  | _ => (none, ts)

/-- `parseTarget` from `parse.ts`: the start variable `TARGET`. -/
def parseTarget (ts : List Token) : Option VarTarget × List Token :=
  match peek ts with
  | Token.number _ | Token.negativeNumber _ | Token.commaOrColon
  | Token.H | Token.L | Token.h | Token.l =>
    let sr := parsePosition ts
    match sr.1 with
    | some start =>
      let er := parseOptionalRangeEnd sr.2
      match er.1 with
      | some rangeEnd => (some (VarTarget.startWithOptionalRangeEnd start rangeEnd), er.2)
      | none => (none, er.2)
    | none => (none, sr.2)
  | Token.period | Token.doublePeriod =>
    let r := parseRangeEnd ts
    (r.1.map VarTarget.rangeEndOnly, r.2)
  | Token.EOF => (none, ts)

/-- `parse` from `parse.ts`: reject when `parseTarget` rejected or when
unconsumed tokens remain (`hasTokensRemaining`). -/
def parse (tokens : List Token) : Option VarTarget :=
  let tr := parseTarget tokens
  if tr.2 ≠ [] ∨ tr.1 = none then none else tr.1

/-!
## Document / editor snapshot (the `vscode` values the interpreter reads)

`interpret.ts` reads, from the `TextEditor` it is handed: `document.lineCount`,
`document.lineAt(...)` (the line's `text` and its `range`), and
`selection.active`. `lineAt` throws on an out-of-bounds line number, modelled
by `Option`.
-/

/-- A `vscode.Position`: 0-based line and character coordinates. -/
structure Position where
  line : Int
  character : Int
deriving DecidableEq, Repr

/-- A `vscode.Selection`: `anchor` is the fixed end, `active` the cursor end.
`new Selection(a, b)` constructs anchor `a` and active `b`. -/
structure Selection where
  anchor : Position
  active : Position
deriving DecidableEq, Repr

/-- A `vscode.TextLine` as used by the interpreter: its line number, its text
(excluding the line break), and thus `range.start = (lineNumber, 0)` and
`range.end = (lineNumber, text.length)`. -/
structure TextLine where
  lineNumber : Int
  text : List Char
deriving DecidableEq, Repr

def TextLine.rangeStart (tl : TextLine) : Position :=
  ⟨tl.lineNumber, 0⟩

def TextLine.rangeEnd (tl : TextLine) : Position :=
  ⟨tl.lineNumber, tl.text.length⟩

/-- A `vscode.TextDocument` snapshot: the text of each line. -/
structure TextDocument where
  lines : List (List Char)
deriving DecidableEq, Repr

def TextDocument.lineCount (d : TextDocument) : Int :=
  d.lines.length

/-- `TextDocument.lineAt`: throws (here `none`) unless `0 ≤ i < lineCount`. -/
def TextDocument.lineAt (d : TextDocument) (i : Int) : Option TextLine :=
  if 0 ≤ i ∧ i < d.lines.length then
    (d.lines.get? i.toNat).map (fun t => ⟨i, t⟩)
  else
    none

/-- A `vscode.TextEditor` snapshot: the document and the primary selection. -/
structure TextEditor where
  document : TextDocument
  selection : Selection
deriving DecidableEq, Repr

/-- The `COLUMN_DEFAULTS_TO` configuration enumeration. -/
inductive COLUMN_DEFAULTS_TO
  | START_OF_LINE
  | END_OF_LINE
  | FIRST_NON_WHITESPACE_CHARACTER_OF_LINE
  | ONE_PAST_LAST_NON_WHITESPACE_CHARACTER_OF_LINE
deriving DecidableEq, Repr

/-- The configuration values read by the interpreter (`config.ts`). -/
structure Config where
  columnDefaultsTo : COLUMN_DEFAULTS_TO
deriving DecidableEq, Repr

/-!
## Interpreter (`interpret.ts`)
-/

/-- The output `Target` variant. `interpretTarget` constructs the `selection`
variant with a `quick` flag field (`{ kind: 'selection', selection, quick }`),
which is therefore part of the runtime value it returns. -/
inductive Target
  | goTo (position : Position)
  | selection (selection : Selection) (quick : Bool)
deriving DecidableEq, Repr

/-- The `firstNonWhitespaceCharacterIndex` helper inside `interpretColumn`:
index of the first non-whitespace character, defaulting to `0`; `i` is the
index of the head of `str` within the whole line. -/
def firstNonWsAux : List Char → Nat → Option Nat
  | [], _ => none
  | c :: rest, i => if !(isWs c) then some i else firstNonWsAux rest (i + 1)

def firstNonWhitespaceCharacterIndex (str : List Char) : Nat :=
  (firstNonWsAux str 0).getD 0

/-- The loop of `onePastLastNonWhitespaceCharacterIndex`, which walks the line
from the right; it receives the reversed text and the index of its head. -/
def onePastAux : List Char → Nat → Nat
  | [], _ => 0
  | c :: rest, i => if !(isWs c) then i + 1 else onePastAux rest (i - 1)

def onePastLastNonWhitespaceCharacterIndex (str : List Char) : Nat :=
  onePastAux str.reverse (str.length - 1)

/-- `interpretColumn` from `interpret.ts`: convert a `COLUMN` variable into a
0-based column index within `targetLine`, rounding an absolute number into
`[0, lineEndInd]` where `lineEndInd = range.end.character = text.length`. -/
def interpretColumn (varColumn : VarColumn) (targetLine : TextLine) : Int :=
  let lineEndInd : Int := targetLine.text.length
  match varColumn with
  | VarColumn.number value =>
    let ind : Int := (value : Int) - 1
    if ind < 0 then 0 else if ind > lineEndInd then lineEndInd else ind
  | VarColumn.H => 0
  | VarColumn.L => lineEndInd
  | VarColumn.h => firstNonWhitespaceCharacterIndex targetLine.text
  | VarColumn.l => onePastLastNonWhitespaceCharacterIndex targetLine.text

/-- `interpretLine` from `interpret.ts`: convert a `LINE` variable into a
0-based line index, rounding into `[0, documentEndInd]`.

Its `switch` has arms only for the declared tags `numberOnly` and
`minusPrefix`; for the tags `number` / `negativeNumber` that `parseLine`
actually constructs, no arm matches and the TS function runs off the end of
the `switch`, returning `undefined` — modelled as `none`. The `minusPrefix`
arm resolves relative to the bottom of the document (`documentEndInd`). -/
def interpretLine (varLine : VarLine) (document : TextDocument) : Option Int :=
  let documentEndInd : Int := document.lineCount - 1
  let round : Int → Int := fun ind =>
    if ind < 0 then 0 else if ind > documentEndInd then documentEndInd else ind
  match varLine with
  | VarLine.numberOnly value => some (round ((value : Int) - 1))
  | VarLine.minusPrefix value => some (round (documentEndInd - (value : Int)))
  | VarLine.number _ => none
  | VarLine.negativeNumber _ => none

/-- The `convertColumnDefaultsTo` helper inside `interpretPosition`. -/
def convertColumnDefaultsTo (config : Config) : VarColumn :=
  match config.columnDefaultsTo with
  | COLUMN_DEFAULTS_TO.START_OF_LINE => VarColumn.H
  | COLUMN_DEFAULTS_TO.END_OF_LINE => VarColumn.L
  | COLUMN_DEFAULTS_TO.FIRST_NON_WHITESPACE_CHARACTER_OF_LINE => VarColumn.h
  | COLUMN_DEFAULTS_TO.ONE_PAST_LAST_NON_WHITESPACE_CHARACTER_OF_LINE => VarColumn.l

/-- `interpretPosition` from `interpret.ts`. In the `lineWithOptionalColumn`
case the source computes `lineInd = interpretLine(...)` and then calls
`editor.document.lineAt(lineInd)`, which throws when `lineInd` is `undefined`
or out of bounds — both modelled as `none`. -/
def interpretPosition (varPosition : VarPosition) (editor : TextEditor)
    (config : Config) : Option Position :=
  match varPosition with
  | VarPosition.lineWithOptionalColumn line column =>
    match interpretLine line editor.document with
    | none => none
    | some lineInd =>
      match editor.document.lineAt lineInd with
      | none => none
      | some targetLine =>
        some ⟨lineInd,
          interpretColumn
            (match column with
             | some c => c
             | none => convertColumnDefaultsTo config)
            targetLine⟩
  | VarPosition.columnOnly column =>
    let cursorLineInd := editor.selection.active.line
    match editor.document.lineAt cursorLineInd with
    | none => none
    | some targetLine => some ⟨cursorLineInd, interpretColumn column targetLine⟩

/-- The `position` field shared by both `VarRangeEnd` variants. -/
def VarRangeEnd.position : VarRangeEnd → VarPosition
  | VarRangeEnd.period p => p
  | VarRangeEnd.doublePeriod p => p

/-- `interpretRangeEnd` from `interpret.ts`: resolve the range-end position and
report `quick = true` for a single `period`, `false` for a `doublePeriod`. -/
def interpretRangeEnd (varRangeEnd : VarRangeEnd) (editor : TextEditor)
    (config : Config) : Option (Position × Bool) :=
  match interpretPosition varRangeEnd.position editor config with
  | none => none
  | some e =>
    match varRangeEnd with
    | VarRangeEnd.period _ => some (e, true)
    | VarRangeEnd.doublePeriod _ => some (e, false)

/-- The `quickSelection` helper inside `interpretTarget`: expand two resolved
positions to a full-line selection. When `endPos`'s line number is `≥`
`start`'s, the result runs from the start of `start`'s line to the end of
`endPos`'s line; otherwise from the end of `start`'s line to the start of
`endPos`'s line. -/
def quickSelection (editor : TextEditor) (start endPos : Position) : Option Selection :=
  match editor.document.lineAt start.line, editor.document.lineAt endPos.line with
  | some startLine, some endLine =>
    if endLine.lineNumber ≥ startLine.lineNumber then
      some ⟨startLine.rangeStart, endLine.rangeEnd⟩
    else
      some ⟨startLine.rangeEnd, endLine.rangeStart⟩
  | _, _ => none

/-- `interpretTarget` from `interpret.ts`. -/
def interpretTarget (varTarget : VarTarget) (editor : TextEditor)
    (config : Config) : Option Target :=
  match varTarget with
  | VarTarget.startWithOptionalRangeEnd start optEnd =>
    match interpretPosition start editor config with
    | none => none
    | some startPos =>
      match optEnd with
      | some re =>
        match interpretRangeEnd re editor config with
        | none => none
        | some (endPos, quick) =>
          if quick then
            (quickSelection editor startPos endPos).map
              (fun sel => Target.selection sel quick)
          else
            some (Target.selection ⟨startPos, endPos⟩ quick)
      | none => some (Target.goTo startPos)
  | VarTarget.rangeEndOnly re =>
    let cursor := editor.selection.active
    match interpretRangeEnd re editor config with
    | none => none
    | some (endPos, quick) =>
      if quick then
        (quickSelection editor cursor endPos).map
          (fun sel => Target.selection sel quick)
      else
        some (Target.selection ⟨cursor, endPos⟩ quick)

/-- `interpret` from `interpret.ts`: tokenize, parse, then interpret,
short-circuiting to rejection (`none`). -/
def interpret (input : List Char) (editor : TextEditor) (config : Config) :
    Option Target :=
  match tokenize input with
  | none => none
  | some tokenStream =>
    match parse tokenStream with
    | none => none
    | some syntaxTree => interpretTarget syntaxTree editor config

/-!
## Sample document / editor snapshots used for concrete evaluations
-/

/-- An editor over a 10-line document whose every line is `"ab"`, with the
primary selection (anchor and active, i.e. the cursor) at line 0, column 0. -/
def sampleEditor : TextEditor :=
  ⟨⟨List.replicate 10 ['a', 'b']⟩, ⟨⟨0, 0⟩, ⟨0, 0⟩⟩⟩

/-- A configuration defaulting omitted columns to the first non-whitespace
character of the line. -/
def sampleConfig : Config :=
  ⟨COLUMN_DEFAULTS_TO.FIRST_NON_WHITESPACE_CHARACTER_OF_LINE⟩

/-- An editor over a single-line document whose line is 15 `'a'` characters,
with the cursor at line 0, column 0. -/
def longLineEditor : TextEditor :=
  ⟨⟨[List.replicate 15 'a']⟩, ⟨⟨0, 0⟩, ⟨0, 0⟩⟩⟩

/-!
## Claims
-/

/-- Claim C1 (code_bug evidence). The digit-run scan of `tokenize` does produce
a single `number` token per maximal run, but its magnitude is wrong for every
run whose later digits' character indices differ from their values: the loop
body `const nextDigit = ++i; magnitude = (magnitude * 10) + nextDigit;` adds
the character index `i`, not the digit's value. So `"10"` scans to magnitude
`11` (not `10`) and `"101"` to `112` (not `101`), while a single digit such as
`"5"` is still correct. -/
theorem tokenize_digit_run_magnitude_bug :
    tokenize "10".toList = some [Token.number 11] ∧
    tokenize "101".toList = some [Token.number 112] ∧
    tokenize "5".toList = some [Token.number 5] := by
  refine ⟨?_, ?_, ?_⟩ <;>
    simp [tokenize, tokenizeAux, scanRun, isWs, digitVal]

/-- Claim C2 (counterexample). On a 10-line document with the primary cursor on
line 0, the interpreter resolves the minus-prefixed line term of magnitude 1 to
line index 8 = (lineCount - 1) - 1, i.e. relative to the document's last line,
not to the cursor's line (cursor-relative resolution clamped into bounds would
give 0). -/
theorem interpretLine_minus_not_cursor_relative :
    interpretLine (VarLine.minusPrefix 1) sampleEditor.document = some 8 ∧
    sampleEditor.selection.active.line = 0 ∧
    (8 : Int) ≠ 0 := by
  refine ⟨?_, ?_, ?_⟩ <;>
    simp [interpretLine, sampleEditor, TextDocument.lineCount]

/-- Claim C2 (amended). A minus-prefixed line term of magnitude `m` resolves to
`(lineCount - 1) - m` clamped into `[0, lineCount - 1]`: the reference line is
the document's last line (a fixed origin), never the cursor. -/
theorem interpretLine_minus_bottom_relative (m : Nat) (doc : TextDocument)
    (hn : 1 ≤ doc.lines.length) :
    interpretLine (VarLine.minusPrefix m) doc =
      some (max ((doc.lines.length : Int) - 1 - (m : Int)) 0) ∧
    0 ≤ max ((doc.lines.length : Int) - 1 - (m : Int)) 0 ∧
    max ((doc.lines.length : Int) - 1 - (m : Int)) 0 ≤ (doc.lines.length : Int) - 1 := by
  have hm : (0 : Int) ≤ (m : Int) := Int.ofNat_nonneg m
  refine ⟨?_, ?_, ?_⟩
  · simp only [interpretLine, TextDocument.lineCount, Option.some.injEq]
    split
    · omega
    · split <;> omega
  · omega
  · omega

/-- Witness for `interpretLine_minus_bottom_relative` at `m = 1` on the 10-line
sample document. -/
theorem interpretLine_minus_bottom_relative_witness :
    interpretLine (VarLine.minusPrefix 1) sampleEditor.document =
      some (max ((sampleEditor.document.lines.length : Int) - 1 - (1 : Nat)) 0) ∧
    0 ≤ max ((sampleEditor.document.lines.length : Int) - 1 - (1 : Nat)) 0 ∧
    max ((sampleEditor.document.lines.length : Int) - 1 - (1 : Nat)) 0 ≤
      (sampleEditor.document.lines.length : Int) - 1 :=
  interpretLine_minus_bottom_relative 1 sampleEditor.document (by simp [sampleEditor])

/-- Claim C3 (code_bug evidence). The input `"1"` tokenizes and parses
successfully, so its syntax tree is one the parser produces; but `parseLine`
builds the line node with tag `number` while `interpretLine` switches only on
the declared tags `numberOnly` / `minusPrefix`, so no arm matches: the switch
falls through (`undefined`), the subsequent `lineAt` call faults, and the whole
interpretation of `"1"` fails instead of producing a Target. -/
theorem interpret_line_term_mismatch_crash :
    tokenize "1".toList = some [Token.number 1] ∧
    parse [Token.number 1] =
      some (VarTarget.startWithOptionalRangeEnd
        (VarPosition.lineWithOptionalColumn (VarLine.number 1) none) none) ∧
    interpretLine (VarLine.number 1) sampleEditor.document = none ∧
    interpret "1".toList sampleEditor sampleConfig = none := by
  refine ⟨?_, ?_, ?_, ?_⟩
  · simp [tokenize, tokenizeAux, scanRun, isWs, digitVal]
  · rfl
  · rfl
  · simp [interpret, tokenize, tokenizeAux, scanRun, isWs, digitVal, parse,
      parseTarget, parsePosition, parseLine, parseOptionalColumn,
      parseOptionalRangeEnd, peek, pop, interpretTarget, interpretPosition,
      interpretLine]

/-- Claim C9 (code_bug evidence). The quick flag carried by the returned
selection is `true` for a single-period range end (`"H.L"`) and `false` for a
double-period one (`"H..L"`); but for an accepted input whose range end
involves a line term, such as `"1..2"`, the interpretation faults on the
`parseLine` / `interpretLine` tag mismatch and no selection is returned at
all. -/
theorem interpret_quick_flag_behavior :
    interpret "1..2".toList sampleEditor sampleConfig = none ∧
    interpret "H..L".toList sampleEditor sampleConfig =
      some (Target.selection ⟨⟨0, 0⟩, ⟨0, 2⟩⟩ false) ∧
    interpret "H.L".toList sampleEditor sampleConfig =
      some (Target.selection ⟨⟨0, 0⟩, ⟨0, 2⟩⟩ true) := by
  refine ⟨?_, ?_, ?_⟩ <;>
    simp [interpret, tokenize, tokenizeAux, scanRun, isWs, digitVal, parse,
      parseTarget, parsePosition, parseColumn, parseLine, parseOptionalColumn,
      parseOptionalRangeEnd, parseRangeEnd, peek, pop, interpretTarget,
      interpretPosition, interpretColumn, interpretLine, interpretRangeEnd,
      VarRangeEnd.position, quickSelection, TextDocument.lineAt,
      TextDocument.lineCount, TextLine.rangeStart, TextLine.rangeEnd,
      sampleEditor, sampleConfig]

/-- A line returned by `lineAt i` carries `i` as its line number. -/
theorem TextDocument.lineAt_lineNumber {d : TextDocument} {i : Int} {tl : TextLine}
    (h : d.lineAt i = some tl) : tl.lineNumber = i := by
  unfold TextDocument.lineAt at h
  split at h
  · cases hg : d.lines.get? i.toNat with
    | none => rw [hg] at h; simp at h
    | some t =>
      rw [hg, Option.map_some'] at h
      have h2 := Option.some.inj h
      rw [← h2]
  · simp at h

/-- Claim C4 (counterexample). With `start` resolved to line 5 and `endPos` to
line 2 (so `endPos` is on the earlier line), the code anchors at the end of the
LATER line (line 5) and puts active at the start of the EARLIER line (line 2)
— not, as claimed, anchor at the earlier line's end and active at the later
line's start. -/
theorem quickSelection_direction_counterexample :
    quickSelection sampleEditor ⟨5, 0⟩ ⟨2, 0⟩ = some ⟨⟨5, 2⟩, ⟨2, 0⟩⟩ ∧
    Selection.mk ⟨5, 2⟩ ⟨2, 0⟩ ≠ Selection.mk ⟨2, 2⟩ ⟨5, 0⟩ := by
  refine ⟨?_, by decide⟩
  simp [quickSelection, sampleEditor, TextDocument.lineAt, TextLine.rangeStart,
    TextLine.rangeEnd]

/-- Claim C4 (amended). For two already-resolved positions whose lines exist in
the document: when `endPos`'s line is `≥` `start`'s line the result anchors at
the start of `start`'s line with active at the end of `endPos`'s line;
otherwise it anchors at the end of `start`'s (the later) line with active at
the start of `endPos`'s (the earlier) line. -/
theorem quickSelection_direction (editor : TextEditor) (start endPos : Position)
    (sl el : TextLine)
    (hs : editor.document.lineAt start.line = some sl)
    (he : editor.document.lineAt endPos.line = some el) :
    quickSelection editor start endPos =
      some (if endPos.line ≥ start.line
            then ⟨⟨start.line, 0⟩, ⟨endPos.line, (el.text.length : Int)⟩⟩
            else ⟨⟨start.line, (sl.text.length : Int)⟩, ⟨endPos.line, 0⟩⟩) := by
  have hsl := TextDocument.lineAt_lineNumber hs
  have hel := TextDocument.lineAt_lineNumber he
  simp only [quickSelection, hs, he, TextLine.rangeStart, TextLine.rangeEnd,
    hsl, hel]
  split <;> rfl

/-- Witness for `quickSelection_direction` on the sample editor with resolved
lines 5 and 2. -/
theorem quickSelection_direction_witness :
    quickSelection sampleEditor ⟨5, 0⟩ ⟨2, 0⟩ =
      some (if (Position.mk 2 0).line ≥ (Position.mk 5 0).line
            then ⟨⟨(Position.mk 5 0).line, 0⟩,
                  ⟨(Position.mk 2 0).line, ((['a', 'b'] : List Char).length : Int)⟩⟩
            else ⟨⟨(Position.mk 5 0).line, ((['a', 'b'] : List Char).length : Int)⟩,
                  ⟨(Position.mk 2 0).line, 0⟩⟩) :=
  quickSelection_direction sampleEditor ⟨5, 0⟩ ⟨2, 0⟩ ⟨5, ['a', 'b']⟩ ⟨2, ['a', 'b']⟩
    (by simp [sampleEditor, TextDocument.lineAt])
    (by simp [sampleEditor, TextDocument.lineAt])

/-- The first-non-whitespace scan never returns an index beyond the text. -/
theorem firstNonWsAux_le (str : List Char) (i : Nat) :
    (firstNonWsAux str i).getD 0 ≤ i + str.length := by
  induction str generalizing i with
  | nil => simp [firstNonWsAux]
  | cons c rest ih =>
    have h2 := ih (i + 1)
    by_cases hc : isWs c <;> simp [firstNonWsAux, hc] <;> omega

/-- The one-past-last-non-whitespace scan never returns an index beyond
`i + 1`, where `i` is the index of the head of the reversed text. -/
theorem onePastAux_le (l : List Char) (i : Nat) : onePastAux l i ≤ i + 1 := by
  induction l generalizing i with
  | nil => simp [onePastAux]
  | cons c rest ih =>
    have h2 := ih (i - 1)
    by_cases hc : isWs c <;> simp [onePastAux, hc] <;> omega

theorem onePastLast_le (str : List Char) :
    onePastLastNonWhitespaceCharacterIndex str ≤ str.length := by
  cases str with
  | nil => simp [onePastLastNonWhitespaceCharacterIndex, onePastAux]
  | cons c rest =>
    have h := onePastAux_le (c :: rest).reverse ((c :: rest).length - 1)
    unfold onePastLastNonWhitespaceCharacterIndex
    simp only [List.length_cons] at h ⊢
    omega

/-- Claim C6. Every line index the interpreter's line resolution produces lies
in `[0, lineCount - 1]` (when the document has at least one line), and every
column index its column resolution produces lies in `[0, lineLength]`. -/
theorem resolved_line_column_in_bounds :
    (∀ (v : VarLine) (doc : TextDocument) (k : Int),
        1 ≤ doc.lines.length → interpretLine v doc = some k →
          0 ≤ k ∧ k ≤ (doc.lines.length : Int) - 1) ∧
    (∀ (c : VarColumn) (tl : TextLine),
        0 ≤ interpretColumn c tl ∧
        interpretColumn c tl ≤ (tl.text.length : Int)) := by
  constructor
  · intro v doc k hn h
    cases v with
    | number m => simp [interpretLine] at h
    | negativeNumber m => simp [interpretLine] at h
    | numberOnly m =>
      simp only [interpretLine, TextDocument.lineCount, Option.some.injEq] at h
      split_ifs at h <;> omega
    | minusPrefix m =>
      simp only [interpretLine, TextDocument.lineCount, Option.some.injEq] at h
      split_ifs at h <;> omega
  · intro c tl
    cases c with
    | number m =>
      refine ⟨?_, ?_⟩ <;> (simp only [interpretColumn]; split_ifs <;> omega)
    | H => simp [interpretColumn]
    | L => simp [interpretColumn]
    | h =>
      have hb := firstNonWsAux_le tl.text 0
      simp only [interpretColumn, firstNonWhitespaceCharacterIndex]
      omega
    | l =>
      have hb := onePastLast_le tl.text
      simp only [interpretColumn]
      omega

/-- Witness for `resolved_line_column_in_bounds`: the line-bounds conjunct at
the declared-tag term `numberOnly 5` on the 10-line sample document, and the
column-bounds conjunct at the shortcut `L` on a 2-character line. -/
theorem resolved_line_column_in_bounds_witness :
    (0 ≤ (4 : Int) ∧
      (4 : Int) ≤ (sampleEditor.document.lines.length : Int) - 1) ∧
    (0 ≤ interpretColumn VarColumn.L ⟨0, ['a', 'b']⟩ ∧
      interpretColumn VarColumn.L ⟨0, ['a', 'b']⟩ ≤
        (((⟨0, ['a', 'b']⟩ : TextLine)).text.length : Int)) :=
  ⟨resolved_line_column_in_bounds.1 (VarLine.numberOnly 5) sampleEditor.document 4
      (by simp [sampleEditor])
      (by simp [interpretLine, TextDocument.lineCount, sampleEditor]),
    resolved_line_column_in_bounds.2 VarColumn.L ⟨0, ['a', 'b']⟩⟩

/-- A run of pure whitespace tokenizes to the empty token list. -/
theorem tokenizeAux_all_ws :
    ∀ (l : List Char) (i : Nat), (∀ c ∈ l, isWs c = true) →
      tokenizeAux l i = some [] := by
  intro l
  induction l with
  | nil => intro i _; simp [tokenizeAux]
  | cons c rest ih =>
    intro i hl
    have hc := hl c (List.mem_cons_self c rest)
    have hrest : ∀ c' ∈ rest, isWs c' = true :=
      fun c' hm => hl c' (List.mem_cons_of_mem _ hm)
    rw [tokenizeAux.eq_def]
    simp [hc, ih (i + 1) hrest]

/-- Claim C7. `parse` rejects exactly when the start production `parseTarget`
rejects or when unconsumed tokens remain after it; the empty token stream is
rejected; hence empty or whitespace-only raw input is rejected end to end. -/
theorem parse_rejects_iff :
    (∀ tokens : List Token,
        parse tokens = none ↔
          ((parseTarget tokens).1 = none ∨ (parseTarget tokens).2 ≠ [])) ∧
    parse [] = none ∧
    (∀ (input : List Char) (editor : TextEditor) (config : Config),
        (∀ c ∈ input, isWs c = true) → interpret input editor config = none) := by
  refine ⟨?_, ?_, ?_⟩
  · intro tokens
    simp only [parse]
    rcases htr : parseTarget tokens with ⟨r, rest⟩
    by_cases h1 : rest = [] <;> by_cases h2 : r = none <;>
      simp [h1, h2]
  · simp [parse, parseTarget, peek]
  · intro input editor config hws
    have htok : tokenize input = some [] := tokenizeAux_all_ws input 0 hws
    simp [interpret, htok, parse, parseTarget, peek]

/-- Witness for `parse_rejects_iff`: the whitespace-only conjunct applied to
the single-space input on the sample editor. -/
theorem parse_rejects_iff_witness :
    interpret [' '] sampleEditor sampleConfig = none :=
  parse_rejects_iff.2.2 [' '] sampleEditor sampleConfig (by decide)

/-- Claim C10. An absolute column term of magnitude 0 (input `",0"`) is
accepted and resolves to column index 0 exactly like magnitude 1 (`",1"`): the
1-based conversion yields -1 which the lower clamp raises to 0. Stated for any
editor whose cursor line exists in its document. -/
theorem interpret_column_zero (editor : TextEditor) (config : Config)
    (tl : TextLine)
    (h : editor.document.lineAt editor.selection.active.line = some tl) :
    interpret ",0".toList editor config =
      some (Target.goTo ⟨editor.selection.active.line, 0⟩) ∧
    interpret ",1".toList editor config = interpret ",0".toList editor config ∧
    (∀ tl2 : TextLine, interpretColumn (VarColumn.number 0) tl2 = 0) := by
  have hcol0 : ∀ tl2 : TextLine, interpretColumn (VarColumn.number 0) tl2 = 0 := by
    intro tl2
    simp [interpretColumn]
  have hcol1 : ∀ tl2 : TextLine, interpretColumn (VarColumn.number 1) tl2 = 0 := by
    intro tl2
    simp only [interpretColumn]
    split_ifs <;> omega
  refine ⟨?_, ?_, hcol0⟩ <;>
    simp [interpret, tokenize, tokenizeAux, scanRun, isWs, digitVal, parse,
      parseTarget, parsePosition, parseColumn, parseOptionalRangeEnd, peek,
      pop, interpretTarget, interpretPosition, h, hcol0, hcol1]

/-- Witness for `interpret_column_zero` on the sample editor. -/
theorem interpret_column_zero_witness :
    interpret ",0".toList sampleEditor sampleConfig =
      some (Target.goTo ⟨sampleEditor.selection.active.line, 0⟩) ∧
    interpret ",1".toList sampleEditor sampleConfig =
      interpret ",0".toList sampleEditor sampleConfig ∧
    (∀ tl2 : TextLine, interpretColumn (VarColumn.number 0) tl2 = 0) :=
  interpret_column_zero sampleEditor sampleConfig ⟨0, ['a', 'b']⟩
    (by simp [sampleEditor, TextDocument.lineAt])

/-!
## Character facts and unfolding lemmas for the tokenizer scan
-/

theorem isWs_cases {c : Char} (h : isWs c = true) :
    c = ' ' ∨ c = '\t' ∨ c = '\n' ∨ c = '\r' ∨ c = '\x0b' ∨ c = '\x0c' := by
  simp only [isWs, Bool.or_eq_true, beq_iff_eq] at h
  tauto

theorem ws_char_not_digit {c : Char} (h : isWs c = true) : c.isDigit = false := by
  rcases isWs_cases h with rfl | rfl | rfl | rfl | rfl | rfl <;> rfl

theorem ws_char_ne_dot {c : Char} (h : isWs c = true) : c ≠ '.' := by
  rcases isWs_cases h with rfl | rfl | rfl | rfl | rfl | rfl <;> decide

theorem ws_char_ne_minus {c : Char} (h : isWs c = true) : c ≠ '-' := by
  rcases isWs_cases h with rfl | rfl | rfl | rfl | rfl | rfl <;> decide

theorem digit_not_ws {c : Char} (h : c.isDigit = true) : isWs c = false := by
  cases hw : isWs c
  · rfl
  · rw [ws_char_not_digit hw] at h
    cases h

theorem digit_ne_minus {c : Char} (h : c.isDigit = true) : c ≠ '-' := by
  intro hc
  rw [hc] at h
  cases h

theorem tokenizeAux_nil (i : Nat) : tokenizeAux [] i = some [] := by
  rw [tokenizeAux.eq_def]

theorem tokenizeAux_ws_cons (c : Char) (rest : List Char) (i : Nat)
    (hc : isWs c = true) :
    tokenizeAux (c :: rest) i = tokenizeAux rest (i + 1) := by
  rw [tokenizeAux.eq_def]
  simp [hc]

theorem tokenizeAux_digit_cons (c : Char) (rest : List Char) (i : Nat)
    (hc : c.isDigit = true) :
    tokenizeAux (c :: rest) i =
      (tokenizeAux (scanRun rest i (digitVal c)).2.2
          ((scanRun rest i (digitVal c)).2.1 + 1)).map
        (Token.number (scanRun rest i (digitVal c)).1 :: ·) := by
  rw [tokenizeAux.eq_def]
  simp [hc, digit_not_ws hc]

theorem tokenizeAux_minus_digit (d : Char) (rest2 : List Char) (i : Nat)
    (hd : d.isDigit = true) :
    tokenizeAux ('-' :: d :: rest2) i =
      (tokenizeAux (scanRun rest2 (i + 1) (digitVal d)).2.2
          ((scanRun rest2 (i + 1) (digitVal d)).2.1 + 1)).map
        (Token.negativeNumber (scanRun rest2 (i + 1) (digitVal d)).1 :: ·) := by
  rw [tokenizeAux.eq_def]
  simp [hd, isWs]

theorem tokenizeAux_minus_nondigit (d : Char) (rest2 : List Char) (i : Nat)
    (hd : d.isDigit = false) :
    tokenizeAux ('-' :: d :: rest2) i = none := by
  rw [tokenizeAux.eq_def]
  simp [hd, isWs]

theorem tokenizeAux_minus_nil (i : Nat) : tokenizeAux ['-'] i = none := by
  rw [tokenizeAux.eq_def]
  simp [isWs]

theorem tokenizeAux_sep_cons (c : Char) (rest : List Char) (i : Nat)
    (hc : c = ',' ∨ c = ':') :
    tokenizeAux (c :: rest) i =
      (tokenizeAux rest (i + 1)).map (Token.commaOrColon :: ·) := by
  rcases hc with rfl | rfl <;> (rw [tokenizeAux.eq_def]; simp [isWs])

theorem tokenizeAux_dotdot (rest2 : List Char) (i : Nat) :
    tokenizeAux ('.' :: '.' :: rest2) i =
      (tokenizeAux rest2 (i + 2)).map (Token.doublePeriod :: ·) := by
  rw [tokenizeAux.eq_def]
  simp [isWs]

theorem tokenizeAux_dot (rest : List Char) (i : Nat)
    (h : rest.head? ≠ some '.') :
    tokenizeAux ('.' :: rest) i =
      (tokenizeAux rest (i + 1)).map (Token.period :: ·) := by
  rw [tokenizeAux.eq_def]
  simp [isWs, h]

theorem tokenizeAux_letter_H (rest : List Char) (i : Nat) :
    tokenizeAux ('H' :: rest) i =
      (tokenizeAux rest (i + 1)).map (Token.H :: ·) := by
  rw [tokenizeAux.eq_def]
  simp [isWs]

theorem tokenizeAux_letter_L (rest : List Char) (i : Nat) :
    tokenizeAux ('L' :: rest) i =
      (tokenizeAux rest (i + 1)).map (Token.L :: ·) := by
  rw [tokenizeAux.eq_def]
  simp [isWs]

theorem tokenizeAux_letter_h (rest : List Char) (i : Nat) :
    tokenizeAux ('h' :: rest) i =
      (tokenizeAux rest (i + 1)).map (Token.h :: ·) := by
  rw [tokenizeAux.eq_def]
  simp [isWs]

theorem tokenizeAux_letter_l (rest : List Char) (i : Nat) :
    tokenizeAux ('l' :: rest) i =
      (tokenizeAux rest (i + 1)).map (Token.l :: ·) := by
  rw [tokenizeAux.eq_def]
  simp [isWs]

theorem tokenizeAux_bad (c : Char) (rest : List Char) (i : Nat)
    (h1 : ¬isWs c = true) (h2 : ¬c.isDigit = true) (h3 : ¬c = '-')
    (h4 : ¬(c = ',' ∨ c = ':')) (h5 : ¬c = '.') (h6 : ¬c = 'H')
    (h7 : ¬c = 'L') (h8 : ¬c = 'h') (h9 : ¬c = 'l') :
    tokenizeAux (c :: rest) i = none := by
  rw [tokenizeAux.eq_def]
  simp [h1, h2, h3, h4, h5, h6, h7, h8, h9]

/-- Appending a suffix whose first character is not a digit does not change
what a digit-run scan consumes, its magnitude, or its final index. -/
theorem scanRun_append (trailing : List Char) (h : headIsDigit trailing = false) :
    ∀ (cs : List Char) (i m : Nat),
      scanRun (cs ++ trailing) i m =
        ((scanRun cs i m).1, (scanRun cs i m).2.1,
          (scanRun cs i m).2.2 ++ trailing) := by
  intro cs
  induction cs with
  | nil =>
    intro i m
    cases trailing with
    | nil => simp [scanRun]
    | cons w t =>
      have hw : w.isDigit = false := by simpa [headIsDigit] using h
      simp [scanRun, hw]
  | cons c rest ih =>
    intro i m
    by_cases hc : c.isDigit <;> simp [scanRun, hc, ih]

/-- Appending trailing whitespace to any input leaves the token stream
unchanged. -/
theorem tokenizeAux_append_ws (trailing : List Char)
    (hws : ∀ c ∈ trailing, isWs c = true) :
    ∀ (cs : List Char) (i : Nat),
      tokenizeAux (cs ++ trailing) i = tokenizeAux cs i := by
  have hhd : headIsDigit trailing = false := by
    cases trailing with
    | nil => rfl
    | cons w t =>
      simpa [headIsDigit] using ws_char_not_digit (hws w (List.mem_cons_self w t))
  intro cs i
  induction cs, i using tokenizeAux.induct with
  | case1 i =>
    rw [List.nil_append, tokenizeAux_all_ws trailing i hws, tokenizeAux_nil]
  | case2 c rest i hc ih =>
    rw [List.cons_append, tokenizeAux_ws_cons c (rest ++ trailing) i hc,
      tokenizeAux_ws_cons c rest i hc, ih]
  | case3 c rest i h1 hc s ih =>
    rw [List.cons_append, tokenizeAux_digit_cons c (rest ++ trailing) i hc,
      tokenizeAux_digit_cons c rest i hc,
      scanRun_append trailing hhd rest i (digitVal c)]
    exact congrArg _ ih
  | case4 i d rest2 hd s h1 h2 ih =>
    rw [List.cons_append, List.cons_append,
      tokenizeAux_minus_digit d (rest2 ++ trailing) i hd,
      tokenizeAux_minus_digit d rest2 i hd,
      scanRun_append trailing hhd rest2 (i + 1) (digitVal d)]
    exact congrArg _ ih
  | case5 i d rest2 hd h1 h2 =>
    have hdf : d.isDigit = false := by simpa using hd
    rw [List.cons_append, List.cons_append,
      tokenizeAux_minus_nondigit d (rest2 ++ trailing) i hdf,
      tokenizeAux_minus_nondigit d rest2 i hdf]
  | case6 i h1 h2 =>
    rw [tokenizeAux_minus_nil]
    cases trailing with
    | nil => rw [List.append_nil, tokenizeAux_minus_nil]
    | cons w t =>
      have hw : w.isDigit = false :=
        ws_char_not_digit (hws w (List.mem_cons_self w t))
      rw [List.cons_append, List.nil_append,
        tokenizeAux_minus_nondigit w t i hw]
  | case7 c rest i h1 h2 h3 hsep ih =>
    rw [List.cons_append, tokenizeAux_sep_cons c (rest ++ trailing) i hsep,
      tokenizeAux_sep_cons c rest i hsep, ih]
  | case8 rest i hh h1 h2 h3 h4 ih =>
    cases rest with
    | nil => simp at hh
    | cons x rt =>
      have hx : x = '.' := by simpa using hh
      subst hx
      simp only [List.tail_cons] at ih
      rw [List.cons_append, List.cons_append, tokenizeAux_dotdot (rt ++ trailing) i,
        tokenizeAux_dotdot rt i, ih]
  | case9 rest i hh h1 h2 h3 h4 ih =>
    have hh2 : (rest ++ trailing).head? ≠ some '.' := by
      cases rest with
      | nil =>
        cases trailing with
        | nil => simp
        | cons w t =>
          simpa using ws_char_ne_dot (hws w (List.mem_cons_self w t))
      | cons x rt => simpa using hh
    rw [List.cons_append, tokenizeAux_dot (rest ++ trailing) i hh2,
      tokenizeAux_dot rest i hh, ih]
  | case10 rest i h1 h2 h3 h4 h5 ih =>
    rw [List.cons_append, tokenizeAux_letter_H (rest ++ trailing) i,
      tokenizeAux_letter_H rest i, ih]
  | case11 rest i h1 h2 h3 h4 h5 h6 ih =>
    rw [List.cons_append, tokenizeAux_letter_L (rest ++ trailing) i,
      tokenizeAux_letter_L rest i, ih]
  | case12 rest i h1 h2 h3 h4 h5 h6 h7 ih =>
    rw [List.cons_append, tokenizeAux_letter_h (rest ++ trailing) i,
      tokenizeAux_letter_h rest i, ih]
  | case13 rest i h1 h2 h3 h4 h5 h6 h7 h8 ih =>
    rw [List.cons_append, tokenizeAux_letter_l (rest ++ trailing) i,
      tokenizeAux_letter_l rest i, ih]
  | case14 c rest i h1 h2 h3 h4 h5 h6 h7 h8 h9 =>
    rw [List.cons_append,
      tokenizeAux_bad c (rest ++ trailing) i h1 h2 h3 h4 h5 h6 h7 h8 h9,
      tokenizeAux_bad c rest i h1 h2 h3 h4 h5 h6 h7 h8 h9]

/-- A digit-run scan consumes only digit characters, which are always
individually acceptable, so `allCharsOk` is unchanged on the remainder. -/
theorem allCharsOk_scanRun :
    ∀ (cs : List Char) (i m : Nat),
      allCharsOk (scanRun cs i m).2.2 = allCharsOk cs := by
  intro cs
  induction cs with
  | nil => intro i m; simp [scanRun]
  | cons c rest ih =>
    intro i m
    by_cases hc : c.isDigit
    · have hne : (c == '-') = false := by
        simpa using digit_ne_minus hc
      simp [scanRun, hc, ih, allCharsOk, hne, recognizedChar]
    · simp [scanRun, hc]

/-- The tokenizer's scan rejects exactly when some character is unrecognized
or some `-` is not immediately followed by a digit. -/
theorem tokenizeAux_none_iff :
    ∀ (cs : List Char) (i : Nat),
      tokenizeAux cs i = none ↔ allCharsOk cs = false := by
  intro cs i
  induction cs, i using tokenizeAux.induct with
  | case1 i => simp [tokenizeAux_nil, allCharsOk]
  | case2 c rest i hc ih =>
    have hne : (c == '-') = false := by
      simpa using ws_char_ne_minus hc
    rw [tokenizeAux_ws_cons c rest i hc]
    simp [allCharsOk, hne, recognizedChar, hc, ih]
  | case3 c rest i h1 hc s ih =>
    have hne : (c == '-') = false := by
      simpa using digit_ne_minus hc
    rw [tokenizeAux_digit_cons c rest i hc]
    simp only [Option.map_eq_none'] at *
    rw [ih, allCharsOk_scanRun]
    simp [allCharsOk, hne, recognizedChar, hc]
  | case4 i d rest2 hd s h1 h2 ih =>
    rw [tokenizeAux_minus_digit d rest2 i hd]
    simp only [Option.map_eq_none'] at *
    rw [ih, allCharsOk_scanRun]
    simp [allCharsOk, headIsDigit, hd, recognizedChar,
      (by simpa using digit_ne_minus hd : (d == '-') = false)]
  | case5 i d rest2 hd h1 h2 =>
    have hdf : d.isDigit = false := by simpa using hd
    rw [tokenizeAux_minus_nondigit d rest2 i hdf]
    simp [allCharsOk, headIsDigit, hdf]
  | case6 i h1 h2 =>
    rw [tokenizeAux_minus_nil]
    simp [allCharsOk, headIsDigit]
  | case7 c rest i h1 h2 h3 hsep ih =>
    have hne : (c == '-') = false := by
      rcases hsep with rfl | rfl <;> rfl
    have hrec : recognizedChar c = true := by
      rcases hsep with rfl | rfl <;> rfl
    rw [tokenizeAux_sep_cons c rest i hsep]
    simp [allCharsOk, hne, hrec, ih]
  | case8 rest i hh h1 h2 h3 h4 ih =>
    cases rest with
    | nil => simp at hh
    | cons x rt =>
      have hx : x = '.' := by simpa using hh
      subst hx
      simp only [List.tail_cons] at ih
      rw [tokenizeAux_dotdot rt i]
      simp [allCharsOk, recognizedChar, ih]
  | case9 rest i hh h1 h2 h3 h4 ih =>
    rw [tokenizeAux_dot rest i hh]
    simp [allCharsOk, recognizedChar, ih]
  | case10 rest i h1 h2 h3 h4 h5 ih =>
    rw [tokenizeAux_letter_H rest i]
    simp [allCharsOk, recognizedChar, ih]
  | case11 rest i h1 h2 h3 h4 h5 h6 ih =>
    rw [tokenizeAux_letter_L rest i]
    simp [allCharsOk, recognizedChar, ih]
  | case12 rest i h1 h2 h3 h4 h5 h6 h7 ih =>
    rw [tokenizeAux_letter_h rest i]
    simp [allCharsOk, recognizedChar, ih]
  | case13 rest i h1 h2 h3 h4 h5 h6 h7 h8 ih =>
    rw [tokenizeAux_letter_l rest i]
    simp [allCharsOk, recognizedChar, ih]
  | case14 c rest i h1 h2 h3 h4 h5 h6 h7 h8 h9 =>
    have hne : (c == '-') = false := by simpa using h3
    have hrec : recognizedChar c = false := by
      have hw : isWs c = false := by simpa using h1
      have hd2 : c.isDigit = false := by simpa using h2
      have h4a : ¬c = ',' := fun hcc => h4 (Or.inl hcc)
      have h4b : ¬c = ':' := fun hcc => h4 (Or.inr hcc)
      simp [recognizedChar, hw, hd2, h3, h4a, h4b, h5, h6, h7, h8, h9]
    rw [tokenizeAux_bad c rest i h1 h2 h3 h4 h5 h6 h7 h8 h9]
    simp [allCharsOk, hne, hrec]

/-- Claim C5 (counterexample). The accepted input `",12"` resolves (on a
15-character single-line document, cursor at the origin) to column index 11,
but inserting a single space between its first and second characters gives
`", 12"`, which is still accepted yet resolves to column index 12: each later
digit of a run contributes the character index it sits at, so shifting the
digits changes the magnitude and hence the target. -/
theorem interpret_whitespace_insert_changes_target :
    interpret ",12".toList longLineEditor sampleConfig =
      some (Target.goTo ⟨0, 11⟩) ∧
    interpret ", 12".toList longLineEditor sampleConfig =
      some (Target.goTo ⟨0, 12⟩) ∧
    Target.goTo (Position.mk 0 11) ≠ Target.goTo ⟨0, 12⟩ := by
  refine ⟨?_, ?_, by decide⟩ <;>
    simp [interpret, tokenize, tokenizeAux, scanRun, isWs, digitVal, parse,
      parseTarget, parsePosition, parseColumn, parseOptionalRangeEnd, peek,
      pop, interpretTarget, interpretPosition, interpretColumn,
      TextDocument.lineAt, longLineEditor, sampleConfig]

/-- Claim C5 (amended). Appending a run of whitespace characters at the end of
the input never changes the outcome: the token stream, and hence acceptance
and the produced target, are identical. (Insertion at interior positions does
not preserve the target in general: it can split a digit run, detach a `-`
from its digits, split `..`, or shift the character indices on which the
scanned magnitudes depend.) -/
theorem interpret_trailing_whitespace_invariant (input trailing : List Char)
    (editor : TextEditor) (config : Config)
    (hws : ∀ c ∈ trailing, isWs c = true) :
    interpret (input ++ trailing) editor config = interpret input editor config := by
  unfold interpret tokenize
  rw [tokenizeAux_append_ws trailing hws input 0]

/-- Witness for `interpret_trailing_whitespace_invariant`: appending one space
to the accepted input `",1"`. -/
theorem interpret_trailing_whitespace_invariant_witness :
    interpret ([',', '1'] ++ [' ']) sampleEditor sampleConfig =
      interpret [',', '1'] sampleEditor sampleConfig :=
  interpret_trailing_whitespace_invariant [',', '1'] [' '] sampleEditor
    sampleConfig (by decide)

/-- Claim C8 (counterexample). A `-` separated from the following digit by a
space is not tokenized as a `negativeNumber` after whitespace-skipping — the
whole input `"- 5"` is rejected, because the tokenizer's guard looks only at
the immediately next character; only an immediately adjacent digit as in
`"-5"` yields the `negativeNumber` token. -/
theorem tokenize_minus_whitespace_rejected :
    tokenize "- 5".toList = none ∧
    tokenize "-5".toList = some [Token.negativeNumber 5] := by
  constructor <;> simp [tokenize, tokenizeAux, scanRun, isWs, digitVal]

/-- Claim C8 (amended). `tokenize` rejects exactly when the input contains a
character outside the recognized set (digit, whitespace, `-`, `,`, `:`, `.`,
`H`, `L`, `h`, `l`) or a `-` that is not IMMEDIATELY followed by a digit
character (no whitespace-skipping between the `-` and the digit). -/
theorem tokenize_rejects_iff (input : List Char) :
    tokenize input = none ↔ allCharsOk input = false :=
  tokenizeAux_none_iff input 0

end GoToLine
